import Mathlib

/-!
Verification of the payslip rendering engine
(`src/pdf/reportlab_payslip_exporter.py`, `src/main.py`,
`src/utils/asset_validation.py`) against its design document.

Monetary amounts and page coordinates are modelled as exact rationals:
the Python floats that reach the formatter are binary doubles whose exact
values are dyadic rationals, so every concrete behaviour checked below is
the behaviour of the source on those exact values.
-/

namespace Payslip

/-- One labelled earning or deduction amount
(`LineItem` dataclass, reportlab_payslip_exporter.py). -/
structure LineItem where
  label : String
  amount : ℚ
deriving Repr, DecidableEq

/-- reportlab's `mm` unit in points: `mm = 72 / 25.4`. -/
def mmQ : ℚ := 360 / 127

/-- reportlab `A4` page width in points (210 mm). -/
def A4width : ℚ := 210 * mmQ

/-- reportlab `A4` page height in points (297 mm). -/
def A4height : ℚ := 297 * mmQ

/-- Round to the nearest integer, ties to the even integer.  This is the
rounding Python applies to the exact value of a float when formatting it
with `:,.2f` (after scaling by 100). -/
def roundHalfEven (q : ℚ) : ℤ :=
  if q - ⌊q⌋ < 1/2 then ⌊q⌋
  else if 1/2 < q - ⌊q⌋ then ⌊q⌋ + 1
  else if ⌊q⌋ % 2 = 0 then ⌊q⌋ else ⌊q⌋ + 1

/-- The character for decimal digit `d`. -/
def digitChar (d : ℕ) : Char := Char.ofNat (48 + d)

/-- Decimal digits of `n`, least significant first (fuelled so that the
kernel can evaluate it). -/
def natDigitsAux : ℕ → ℕ → List ℕ
  | 0, _ => []
  | _ + 1, 0 => []
  | fuel + 1, n + 1 => (n + 1) % 10 :: natDigitsAux fuel ((n + 1) / 10)

/-- Decimal digits of `n`, least significant first; `[]` for `0`. -/
def natDigits (n : ℕ) : List ℕ := natDigitsAux n n

/-- Insert a comma after every group of three characters, the input being a
digit string least-significant-first. -/
def groupCommasLSF : List Char → List Char
  | a :: b :: c :: d :: rest => a :: b :: c :: ',' :: groupCommasLSF (d :: rest)
  | l => l

/-- Decimal digit characters of `n`, most significant first, with thousands
commas (`"1,234,567"` style); `"0"` for zero. -/
def groupedIntChars (n : ℕ) : List Char :=
  if n = 0 then ['0'] else (groupCommasLSF ((natDigits n).map digitChar)).reverse

/-- Decimal digit characters of `n`, most significant first, no commas. -/
def plainIntChars (n : ℕ) : List Char :=
  if n = 0 then ['0'] else ((natDigits n).map digitChar).reverse

/-- Python `f"{q:,.2f}"` on the exact value of the float: two fractional
digits, thousands separators, minus sign in front of the digits. -/
def fmtSep2 (q : ℚ) : String :=
  (if q < 0 then "-" else "")
    ++ String.mk (groupedIntChars ((roundHalfEven (q * 100)).natAbs / 100)) ++ "."
    ++ String.mk [digitChar ((roundHalfEven (q * 100)).natAbs % 100 / 10),
                  digitChar ((roundHalfEven (q * 100)).natAbs % 10)]

/-- Python `f"{q:.2f}"` (no thousands separators), used for the manifest
totals in `main.py`. -/
def fmt2NoSep (q : ℚ) : String :=
  (if q < 0 then "-" else "")
    ++ String.mk (plainIntChars ((roundHalfEven (q * 100)).natAbs / 100)) ++ "."
    ++ String.mk [digitChar ((roundHalfEven (q * 100)).natAbs % 100 / 10),
                  digitChar ((roundHalfEven (q * 100)).natAbs % 10)]

/-- `fmt_currency` (reportlab_payslip_exporter.py, line 19):
`sym = "" if symbol is None else str(symbol)` then `f"{sym}{amount:,.2f}"`. -/
def fmt_currency (amount : ℚ) (symbol : Option String) : String :=
  (match symbol with
   | none => ""
   | some s => s) ++ fmtSep2 amount

/-- Checker: a reversed integer-part digit string is correctly
comma-grouped (three digits before every comma, one to three digits in the
leading group). -/
def revGroupOk : List Char → Bool
  | a :: b :: c :: ',' :: rest => a.isDigit && b.isDigit && c.isDigit && revGroupOk rest
  | [a] => a.isDigit
  | [a, b] => a.isDigit && b.isDigit
  | [a, b, c] => a.isDigit && b.isDigit && c.isDigit
  | _ => false

/-- Drop one leading minus sign if present. -/
def stripMinus : List Char → List Char
  | '-' :: u => u
  | u => u

/-- Checker on the character list: after an optional minus, comma-grouped
digits, a point, two digits. -/
def isMoneyChars (l : List Char) : Bool :=
  match (stripMinus l).reverse with
  | b :: a :: '.' :: ri => a.isDigit && b.isDigit && revGroupOk ri
  | _ => false

/-- Checker: `s` is `<optional minus><comma-grouped digits>.<2 digits>`. -/
def isMoneyStr (s : String) : Bool := isMoneyChars s.data

/-- Python whitespace as split/strip see it (the ASCII whitespace
characters; the sanitiser's replace step has already turned the escape
characters that matter for the claims into dashes). -/
def pySpace (c : Char) : Bool :=
  c = ' ' || c = '\t' || c = '\n' || c = '\r' || c = '\x0b' || c = '\x0c'

/-- The characters `_sanitise_filename_part` (main.py, line 34) replaces
with a dash. -/
def badChars : List Char :=
  ['/', '\\', ':', '*', '?', '"', '<', '>', '|', '\n', '\r', '\t']

/-- One pass of the replace loop: each listed character becomes a dash
(each target is a single character and the dash is not itself replaced, so
the sequential `str.replace` loop acts character-wise). -/
def replaceBad (c : Char) : Char := if c ∈ badChars then '-' else c

/-- Python `str.strip()` on a character list. -/
def pyStrip (l : List Char) : List Char :=
  ((l.dropWhile pySpace).reverse.dropWhile pySpace).reverse

/-- Python `str.strip()`. -/
def pyStripStr (s : String) : String := String.mk (pyStrip s.data)

/-- Python `str.split()` with no separator: maximal runs of
non-whitespace, empty runs dropped. -/
def pyWords : List Char → List (List Char)
  | [] => []
  | c :: cs =>
    if pySpace c then pyWords cs
    else (c :: cs.takeWhile (fun x => !pySpace x)) ::
      pyWords (cs.dropWhile (fun x => !pySpace x))
termination_by l => l.length
decreasing_by
  · simp only [List.length_cons]; omega
  · simp only [List.length_cons]
    have := (List.dropWhile_sublist (l := cs) (fun x => !pySpace x)).length_le
    omega

/-- Python `" ".join(ws)`. -/
def joinSp : List (List Char) → List Char
  | [] => []
  | w :: ws =>
    match ws with
    | [] => w
    | _ :: _ => w ++ ' ' :: joinSp ws

/-- `_sanitise_filename_part` (main.py, lines 34-39):
strip, replace the listed characters with dashes, then collapse whitespace
runs with `" ".join(s.split())`. -/
def sanitiseFilenamePart (s : String) : String :=
  String.mk (joinSp (pyWords ((pyStrip s.data).map replaceBad)))

/-- Checker: no two adjacent spaces. -/
def noDoubleSpace : List Char → Bool
  | a :: b :: t => !(a = ' ' && b = ' ') && noDoubleSpace (b :: t)
  | _ => true

/-- A drawing primitive issued to the reportlab canvas.  Font and line
width selection commands carry no layout or content information for the
claims and are omitted. -/
inductive DrawCmd where
  | text (x y : ℚ) (s : String)
  | centred (x y : ℚ) (s : String)
  | rightText (x y : ℚ) (s : String)
  | line (x0 y0 x1 y1 : ℚ)
  | image (path : String) (x y w h : ℚ)
  | showPage
  | savePdf
deriving Repr, DecidableEq

/-- `ReportLabPayslipExporter.__init__`: `margin = margin_mm * mm`,
`line_gap = float(line_gap)` (points). Source defaults: 14.0 and 14.0. -/
structure Exporter where
  margin : ℚ
  line_gap : ℚ
deriving Repr, DecidableEq

def Exporter.mkDefault : Exporter := ⟨14 * mmQ, 14⟩

/-- The footer configuration read with `.get` defaults in `render_pdf`
(lines 188-193): label `"Approved By:"`, name `""`, signature gap 4 mm,
name gap 3 mm. -/
structure FooterCfg where
  approved_by_label : String := "Approved By:"
  approved_by_name : String := ""
  signature_gap_mm : ℚ := 4
  name_gap_mm : ℚ := 3
deriving Repr, DecidableEq

/-- `_sep` (line 243): one full-width horizontal rule at height `y`. -/
def sepCmd (x0 x1 y : ℚ) : List DrawCmd := [.line x0 y x1 y]

/-- `_section_title` (line 247): title text, short underline 2 points
below, cursor result `y - 20`. -/
def sectionTitle (x0 y : ℚ) (title : String) : List DrawCmd × ℚ :=
  ([.text x0 y title, .line x0 (y - 2) (x0 + 30 * mmQ) (y - 2)], y - 20)

/-- `_line_items` (line 254): one row per item in input order, label left,
formatted amount right-aligned, cursor stepped by `line_gap` per row. -/
def lineItemsBlock (g x0 x1 : ℚ) (sym : Option String) :
    List LineItem → ℚ → List DrawCmd × ℚ
  | [], y => ([], y)
  | it :: its, y =>
    let rest := lineItemsBlock g x0 x1 sym its (y - g)
    (.text x0 y it.label :: .rightText x1 y (fmt_currency it.amount sym) :: rest.1,
     rest.2)

/-- The employee-info loop (lines 134-139): label at `x0`, value at
`value_x`, cursor stepped by `line_gap` per row. -/
def infoRowsBlock (g x0 vx : ℚ) : List (String × String) → ℚ → List DrawCmd × ℚ
  | [], y => ([], y)
  | (k, v) :: rs, y =>
    let rest := infoRowsBlock g x0 vx rs (y - g)
    (.text x0 y k :: .text vx y v :: rest.1, rest.2)

/-- One earnings/deductions section body (lines 146-152 resp. 159-165):
section title, the item rows, then the totals row at the current cursor,
then one `line_gap` step. -/
def sectionBlock (g x0 x1 y : ℚ) (title : String) (items : List LineItem)
    (totalLabel : String) (total : ℚ) (sym : Option String) :
    List DrawCmd × ℚ :=
  let t := sectionTitle x0 y title
  let li := lineItemsBlock g x0 x1 sym items t.2
  (t.1 ++ li.1
    ++ [.text x0 li.2 totalLabel, .rightText x1 li.2 (fmt_currency total sym)],
   li.2 - g)

/-- The footer block (lines 188-233): approver label at the cursor, the
cursor steps down by the signature gap, the signature image is attempted
when a path is present (`sigOk` models whether `drawImage` succeeds;
on failure the exception is swallowed and `sig_drawn` stays false), the
cursor skips the image height only when the image was drawn, and the
stripped approver name is printed if nonempty followed by a 10 point step. -/
def footerBlock (x0 y : ℚ) (cfg : FooterCfg) (signature_path : Option String)
    (sigOk : Bool) : List DrawCmd × ℚ :=
  let name := pyStripStr cfg.approved_by_name
  let y1 := y - cfg.signature_gap_mm * mmQ
  let sigH := 18 * mmQ
  let sigDrawn := signature_path.isSome && sigOk
  let sigCmds : List DrawCmd :=
    match signature_path with
    | some p => if sigOk then [.image p (x0 - 9 * mmQ) (y1 - sigH) (45 * mmQ) sigH] else []
    | none => []
  let y2 := if sigDrawn then (y1 - sigH) - cfg.name_gap_mm * mmQ
            else y1 - cfg.name_gap_mm * mmQ
  let nameCmds : List DrawCmd := if name = "" then [] else [.text x0 y2 name]
  let y3 := if name = "" then y2 else y2 - 10
  (.text x0 y cfg.approved_by_label :: sigCmds ++ nameCmds, y3)

/-- `gross = sum(x.amount for x in earnings)` (line 62). -/
def grossOf (earnings : List LineItem) : ℚ := (earnings.map LineItem.amount).sum

/-- `total_deduction = sum(x.amount for x in deductions)` (line 63). -/
def totalDeductionOf (deductions : List LineItem) : ℚ :=
  (deductions.map LineItem.amount).sum

/-- `net_pay = gross - total_deduction` (line 64). -/
def netPayOf (earnings deductions : List LineItem) : ℚ :=
  grossOf earnings - totalDeductionOf deductions

/-- The data `render_pdf` consumes for one payslip page. -/
structure RenderInput where
  company_line1 : String
  company_line2 : String
  period_display : String
  emp_ref : String
  emp_name : String
  emp_designation : String
  emp_department : String
  earnings : List LineItem
  deductions : List LineItem
  gross_income_label : String
  total_deduction_label : String
  net_pay_label : String
  logo_path : Option String
  signature_path : Option String
  currency_symbol : String
  footer : FooterCfg
  generated_at : String

structure RenderOut where
  cmds : List DrawCmd
  finalY : ℚ
deriving Repr, DecidableEq

/-- `ReportLabPayslipExporter.render_pdf` (lines 43-241) as the sequence of
drawing commands it issues and the final layout-cursor value.  `logoOk` and
`sigOk` model whether the two `drawImage` calls succeed (their exceptions
are caught and swallowed in the source). -/
def render_pdf (ex : Exporter) (inp : RenderInput) (logoOk sigOk : Bool) :
    RenderOut :=
  let width := A4width
  let height := A4height
  let gross := grossOf inp.earnings
  let total_deduction := totalDeductionOf inp.deductions
  let net_pay := gross - total_deduction
  let x0 := ex.margin
  let x1 := width - ex.margin
  let y := height - ex.margin
  let logo_box_w := 60 * mmQ
  let logo_box_h := 32 * mmQ
  let box_x := width - 0 * mmQ - logo_box_w
  let box_y := height - 2 * mmQ - logo_box_h
  let logoCmds : List DrawCmd :=
    match inp.logo_path with
    | some p => if logoOk then [.image p box_x box_y logo_box_w logo_box_h] else []
    | none => []
  let titleCmds : List DrawCmd :=
    [.centred ((x0 + x1) / 2) (y - 2 * mmQ) inp.company_line1,
     .centred ((x0 + x1) / 2) (y - 9 * mmQ) inp.company_line2,
     .centred ((x0 + x1) / 2) (y - 16 * mmQ) inp.period_display]
  let y := y - 22 * mmQ
  let sep1 := sepCmd x0 x1 y
  let y := y - 10 * mmQ
  let value_x := x0 + 70 * mmQ
  let info := infoRowsBlock ex.line_gap x0 value_x
    [("EMPLOYEE REFERENCE NO", inp.emp_ref), ("NAME", inp.emp_name),
     ("DESIGNATION", inp.emp_designation), ("DEPARTMENT", inp.emp_department),
     ("MONTH", inp.period_display)] y
  let y := info.2
  let y := y - 2 * mmQ
  let sep2 := sepCmd x0 x1 y
  let y := y - 12 * mmQ
  let earn := sectionBlock ex.line_gap x0 x1 y "EARNINGS:" inp.earnings
    inp.gross_income_label gross (some inp.currency_symbol)
  let y := earn.2
  let y := y - 6 * mmQ
  let sep3 := sepCmd x0 x1 y
  let y := y - 12 * mmQ
  let ded := sectionBlock ex.line_gap x0 x1 y "DEDUCTIONS:" inp.deductions
    inp.total_deduction_label total_deduction (some inp.currency_symbol)
  let y := ded.2
  let sep4 := sepCmd x0 x1 y
  let y := y - 10 * mmQ
  let netCmds : List DrawCmd :=
    [.text x0 y inp.net_pay_label,
     .rightText x1 y (fmt_currency net_pay (some inp.currency_symbol))]
  let y := y - 10 * mmQ
  let sep5 := sepCmd x0 x1 y
  let y := y - 10 * mmQ
  let foot := footerBlock x0 y inp.footer inp.signature_path sigOk
  let tsCmd : List DrawCmd :=
    [.rightText x1 (ex.margin / 2) ("Generated: " ++ inp.generated_at)]
  ⟨logoCmds ++ titleCmds ++ sep1 ++ info.1 ++ sep2 ++ earn.1 ++ sep3 ++ ded.1
    ++ sep4 ++ netCmds ++ sep5 ++ foot.1 ++ tsCmd ++ [.showPage, .savePdf],
   foot.2⟩

/-- Successive cursor values obtained by subtracting each decrement in
turn, starting from `y`. -/
def traceFrom : ℚ → List ℚ → List ℚ
  | y, [] => [y]
  | y, d :: ds => y :: traceFrom (y - d) ds

/-- The cursor decrements of one `render_pdf` call, in source order
(22 mm and 10 mm around the header rule; five info rows; 2 mm + 12 mm
around the second rule; 20 points for each section title; one `line_gap`
per item row and per totals row; 6 mm + 12 mm between the sections;
three 10 mm steps around the net-pay block; the footer gaps; 10 points
after the printed name when it is shown). -/
def decrements (ex : Exporter) (nE nD : ℕ) (cfg : FooterCfg)
    (sigDrawn nameShown : Bool) : List ℚ :=
  [22 * mmQ, 10 * mmQ] ++ List.replicate 5 ex.line_gap
  ++ [2 * mmQ, 12 * mmQ, 20] ++ List.replicate nE ex.line_gap
  ++ [ex.line_gap, 6 * mmQ, 12 * mmQ, 20] ++ List.replicate nD ex.line_gap
  ++ [ex.line_gap, 10 * mmQ, 10 * mmQ, 10 * mmQ, cfg.signature_gap_mm * mmQ,
      if sigDrawn then 18 * mmQ + cfg.name_gap_mm * mmQ else cfg.name_gap_mm * mmQ]
  ++ (if nameShown then [(10 : ℚ)] else [])

/-- The full cursor trace of one render, starting at `pageHeight - margin`. -/
def cursorTrace (ex : Exporter) (nE nD : ℕ) (cfg : FooterCfg)
    (sigDrawn nameShown : Bool) : List ℚ :=
  traceFrom (A4height - ex.margin) (decrements ex nE nD cfg sigDrawn nameShown)

/-- The string carried by a text-drawing command, if any. -/
def textOf : DrawCmd → Option String
  | .text _ _ s => some s
  | .centred _ _ s => some s
  | .rightText _ _ s => some s
  | _ => none

/-- The image path carried by an image command, if any. -/
def imageOf : DrawCmd → Option String
  | .image p _ _ _ _ => some p
  | _ => none

/-- All strings drawn by a command list, in order. -/
def textStrings (cs : List DrawCmd) : List String := cs.filterMap textOf

/-- All image paths drawn by a command list, in order. -/
def imagePaths (cs : List DrawCmd) : List String := cs.filterMap imageOf

/-- A concrete footer configuration used to instantiate the theorems. -/
def sampleFooter : FooterCfg := ⟨"Approved By:", "Jane Doe", 4, 3⟩

/-- A concrete render input used to instantiate the theorems. -/
def sampleInput : RenderInput :=
  { company_line1 := "ACME", company_line2 := "Payroll",
    period_display := "May 2025", emp_ref := "E1", emp_name := "John",
    emp_designation := "Engineer", emp_department := "R-D",
    earnings := [⟨"Basic", 50000⟩, ⟨"Allowance", 10000⟩],
    deductions := [⟨"Tax", 5000⟩],
    gross_income_label := "GROSS INCOME",
    total_deduction_label := "TOTAL DEDUCTION", net_pay_label := "NET PAY",
    logo_path := some "logo.png", signature_path := none,
    currency_symbol := "£", footer := sampleFooter,
    generated_at := "2025-05-31 12:00:00" }

/-- `_safe_float` (main.py, line 23): `None` and blank cells become `0.0`.
A cell reaches the model as `Option ℚ`: a missing, blank or unparsable
cell is `none` (the float parsing itself is not re-modelled; the source
maps every parse failure to `0.0`). -/
def safeFloat : Option ℚ → ℚ
  | none => 0
  | some q => q

/-- One entry of the configured earnings/deductions field lists. -/
structure FieldCfg where
  label : String
  column : String

/-- `_build_line_items` (main.py, line 42): skip entries with a blank
label or column after stripping, read the cell, blanks become zero. -/
def buildLineItems (raw : String → Option ℚ) : List FieldCfg → List LineItem
  | [] => []
  | f :: fs =>
    if pyStripStr f.label = "" ∨ pyStripStr f.column = "" then
      buildLineItems raw fs
    else ⟨pyStripStr f.label, safeFloat (raw (pyStripStr f.column))⟩
      :: buildLineItems raw fs

/-- One employee row as the batch loop sees it. -/
structure Emp where
  ref : String
  name : String
  email : String
  designation : String
  department : String
  raw : String → Option ℚ

/-- One manifest CSV row (main.py, lines 178-209). -/
structure ManifestRow where
  employee_ref : String
  name : String
  email : String
  period_id : String
  period_display : String
  pdf_path : String
  gross_income : String
  total_deductions : String
  net_pay : String
  status : String
deriving Repr, DecidableEq

/-- `.replace(" ", "_")` applied to the sanitised employee name
(main.py, line 149). -/
def replaceSpaceUnderscore (s : String) : String :=
  String.mk (s.data.map (fun c => if c = ' ' then '_' else c))

/-- The output PDF filename
`f"{emp.ref}_{safe_name}_{period.period_id}.pdf"` (main.py, line 150). -/
def pdfFilename (emp : Emp) (periodId : String) : String :=
  emp.ref ++ "_" ++ replaceSpaceUnderscore (sanitiseFilenamePart emp.name)
    ++ "_" ++ periodId ++ ".pdf"

/-- `AssetSpec` (asset_validation.py, line 10), with the filesystem facts
the validator reads (existence, the path's suffix, the decoded image
size) supplied as fields of the model. -/
structure AssetSpec where
  path : String
  pathExists : Bool
  suffix : String
  allowed_extensions : List String
  enforce_resolution : Bool
  required_px : Option (ℕ × ℕ)
  actual_px : ℕ × ℕ
  label : String

/-- Python `str.lower()` restricted to ASCII case folding. -/
def lowerStr (s : String) : String := String.mk (s.data.map Char.toLower)

/-- `validate_asset` (asset_validation.py, line 19).  The extension and
resolution error strings are abbreviated (their prefixes are faithful);
the missing-file message is modelled verbatim. -/
def validate_asset (spec : AssetSpec) : Except String Unit :=
  if spec.pathExists = false then
    .error ("Missing required asset '" ++ spec.label ++ "': " ++ spec.path)
  else if spec.allowed_extensions ≠ [] ∧
      lowerStr spec.suffix ∉ spec.allowed_extensions.map lowerStr then
    .error ("Asset '" ++ spec.label ++ "' has invalid extension '"
      ++ lowerStr spec.suffix ++ "'.")
  else if spec.enforce_resolution then
    match spec.required_px with
    | none =>
      .error ("Asset '" ++ spec.label
        ++ "' enforce_resolution=True but required_px not set")
    | some px =>
      if spec.actual_px ≠ px then
        .error ("Asset '" ++ spec.label ++ "' resolution mismatch")
      else .ok ()
  else .ok ()

/-- `validate_branding_assets` (asset_validation.py, line 42): the logo is
validated first with label `"logo"`, then the signature with label
`"signature"`; the first failure raises. -/
def validate_branding_assets (logo sig : AssetSpec) : Except String Unit :=
  match validate_asset { logo with label := "logo" } with
  | .error m => .error m
  | .ok _ => validate_asset { sig with label := "signature" }

/-- The per-employee loop of `main` (main.py, lines 144-211):
`renderFails e` is the exception message `render_pdf` raises for `e`
(`none` when the render succeeds).  On success one `"generated"` manifest
row and the output path are recorded; on failure one `"error: <message>"`
row with empty fields is recorded and, when fail-fast is set, the
exception is re-raised (dropping the manifest, which is only written
after the loop). -/
def runBatch (earningsCfg deductionsCfg : List FieldCfg)
    (periodId periodDisplay pdfDir : String)
    (renderFails : Emp → Option String) (failFast : Bool) :
    List Emp → Except String (List ManifestRow × List String)
  | [] => .ok ([], [])
  | e :: rest =>
    let eItems := buildLineItems e.raw earningsCfg
    let dItems := buildLineItems e.raw deductionsCfg
    let outPdf := pdfDir ++ "/" ++ pdfFilename e periodId
    match renderFails e with
    | none =>
      let gross := (eItems.map LineItem.amount).sum
      let totalDed := (dItems.map LineItem.amount).sum
      let row : ManifestRow :=
        ⟨e.ref, e.name, e.email, periodId, periodDisplay, outPdf,
         fmt2NoSep gross, fmt2NoSep totalDed, fmt2NoSep (gross - totalDed),
         "generated"⟩
      match runBatch earningsCfg deductionsCfg periodId periodDisplay pdfDir
          renderFails failFast rest with
      | .ok (rows, paths) => .ok (row :: rows, outPdf :: paths)
      | .error m => .error m
    | some m =>
      let row : ManifestRow :=
        ⟨e.ref, e.name, e.email, periodId, periodDisplay, "", "", "", "",
         "error: " ++ m⟩
      if failFast then .error m
      else
        match runBatch earningsCfg deductionsCfg periodId periodDisplay pdfDir
            renderFails failFast rest with
        | .ok (rows, paths) => .ok (row :: rows, paths)
        | .error m2 => .error m2

/-- `main` (main.py): branding assets are validated once, before any
employee is processed (line 96); only then does the batch loop run. -/
def runMain (logo sig : AssetSpec) (earningsCfg deductionsCfg : List FieldCfg)
    (periodId periodDisplay pdfDir : String)
    (renderFails : Emp → Option String) (failFast : Bool) (emps : List Emp) :
    Except String (List ManifestRow × List String) :=
  match validate_branding_assets logo sig with
  | .error m => .error m
  | .ok _ => runBatch earningsCfg deductionsCfg periodId periodDisplay pdfDir
      renderFails failFast emps

theorem natDigitsAux_lt (fuel : ℕ) : ∀ (n : ℕ), ∀ d ∈ natDigitsAux fuel n, d < 10 := by
  induction fuel with
  | zero => intro n d hd; simp [natDigitsAux] at hd
  | succ f ih =>
    intro n d hd
    cases n with
    | zero => simp [natDigitsAux] at hd
    | succ m =>
      simp only [natDigitsAux, List.mem_cons] at hd
      rcases hd with h | h
      · omega
      · exact ih _ d h

theorem natDigits_lt (n : ℕ) : ∀ d ∈ natDigits n, d < 10 :=
  natDigitsAux_lt n n

theorem natDigits_ne_nil {n : ℕ} (h : 0 < n) : natDigits n ≠ [] := by
  cases n with
  | zero => omega
  | succ m => simp [natDigits, natDigitsAux]

theorem digitChar_isDigit {d : ℕ} (h : d < 10) : (digitChar d).isDigit = true := by
  interval_cases d <;> decide

theorem revGroupOk_group :
    ∀ (l : List Char), l ≠ [] → (∀ c ∈ l, c.isDigit = true) →
      revGroupOk (groupCommasLSF l) = true
  | [], h, _ => absurd rfl h
  | [a], _, h => by
      have ha := h a (by simp)
      simp [groupCommasLSF, revGroupOk, ha]
  | [a, b], _, h => by
      have ha := h a (by simp)
      have hb := h b (by simp)
      simp [groupCommasLSF, revGroupOk, ha, hb]
  | [a, b, c], _, h => by
      have ha := h a (by simp)
      have hb := h b (by simp)
      have hc := h c (by simp)
      simp [groupCommasLSF, revGroupOk, ha, hb, hc]
  | a :: b :: c :: d :: rest, _, h => by
      have hrec : revGroupOk (groupCommasLSF (d :: rest)) = true :=
        revGroupOk_group (d :: rest) (by simp)
          (fun x hx => h x (by simp only [List.mem_cons] at hx ⊢; tauto))
      have ha := h a (by simp)
      have hb := h b (by simp)
      have hc := h c (by simp)
      show revGroupOk (a :: b :: c :: ',' :: groupCommasLSF (d :: rest)) = true
      simp [revGroupOk, ha, hb, hc, hrec]
termination_by l => l.length

theorem groupedIntChars_ok (n : ℕ) :
    revGroupOk (groupedIntChars n).reverse = true := by
  unfold groupedIntChars
  by_cases h : n = 0
  · subst h; decide
  · simp only [h, if_false, List.reverse_reverse]
    refine revGroupOk_group _ ?_ ?_
    · simp only [ne_eq, List.map_eq_nil_iff]
      exact natDigits_ne_nil (Nat.pos_of_ne_zero h)
    · intro c hc
      simp only [List.mem_map] at hc
      obtain ⟨d, hd, rfl⟩ := hc
      exact digitChar_isDigit (natDigits_lt n d hd)

theorem groupCommasLSF_cons (x : Char) (xs : List Char) :
    ∃ g gt, groupCommasLSF (x :: xs) = g :: gt := by
  rcases xs with _ | ⟨b, _ | ⟨c, _ | ⟨d, rest⟩⟩⟩ <;> exact ⟨_, _, rfl⟩

theorem groupCommasLSF_getLast? :
    ∀ (l : List Char), (groupCommasLSF l).getLast? = l.getLast?
  | [] => rfl
  | [_] => rfl
  | [_, _] => rfl
  | [_, _, _] => rfl
  | a :: b :: c :: d :: rest => by
      obtain ⟨g, gt, hg⟩ := groupCommasLSF_cons d rest
      have ih := groupCommasLSF_getLast? (d :: rest)
      show (a :: b :: c :: ',' :: groupCommasLSF (d :: rest)).getLast? =
        (a :: b :: c :: d :: rest).getLast?
      rw [hg] at ih ⊢
      simp only [List.getLast?_cons_cons]
      exact ih
termination_by l => l.length

/-- The grouped integer part is a nonempty string headed by a digit. -/
theorem groupedIntChars_cons (n : ℕ) :
    ∃ c t, groupedIntChars n = c :: t ∧ c.isDigit = true := by
  unfold groupedIntChars
  by_cases h : n = 0
  · exact ⟨'0', [], by simp [h], by decide⟩
  · simp only [h, if_false]
    have hne : (natDigits n).map digitChar ≠ [] := by
      simp only [ne_eq, List.map_eq_nil_iff]
      exact natDigits_ne_nil (Nat.pos_of_ne_zero h)
    obtain ⟨x, xs, hx⟩ := List.exists_cons_of_ne_nil hne
    obtain ⟨g, gt, hg⟩ : ∃ g gt,
        groupCommasLSF ((natDigits n).map digitChar) = g :: gt :=
      hx ▸ groupCommasLSF_cons x xs
    have hlast : ((natDigits n).map digitChar).getLast? =
        (groupCommasLSF ((natDigits n).map digitChar)).getLast? :=
      (groupCommasLSF_getLast? _).symm
    rcases hrev : (groupCommasLSF ((natDigits n).map digitChar)).reverse with _ | ⟨c, t⟩
    · rw [hg] at hrev
      simp at hrev
    · refine ⟨c, t, rfl, ?_⟩
      have hc : ((natDigits n).map digitChar).getLast? = some c := by
        rw [hlast, ← List.head?_reverse, hrev]
        rfl
      have hmem := List.mem_of_getLast?_eq_some hc
      simp only [List.mem_map] at hmem
      obtain ⟨d, hd, rfl⟩ := hmem
      exact digitChar_isDigit (natDigits_lt n d hd)

theorem stripMinus_minus (u : List Char) : stripMinus ('-' :: u) = u := rfl

theorem stripMinus_of_head_ne (c : Char) (u : List Char) (h : c ≠ '-') :
    stripMinus (c :: u) = c :: u := by
  unfold stripMinus
  split
  · rename_i heq
    injection heq with h1 _
    exact absurd h1 h
  · rfl

theorem isMoneyChars_tail (I : List Char) (d1 d2 : Char)
    (h1 : d1.isDigit = true) (h2 : d2.isDigit = true)
    (hg : revGroupOk I.reverse = true)
    (hstrip : stripMinus (I ++ ['.', d1, d2]) = I ++ ['.', d1, d2]) :
    isMoneyChars (I ++ ['.', d1, d2]) = true := by
  unfold isMoneyChars
  rw [hstrip]
  have hrev : (I ++ ['.', d1, d2]).reverse = d2 :: d1 :: '.' :: I.reverse := by
    simp
  rw [hrev]
  show (d1.isDigit && d2.isDigit && revGroupOk I.reverse) = true
  simp [h1, h2, hg]

theorem isMoneyChars_build (c : Char) (t : List Char) (d1 d2 : Char)
    (hc : c.isDigit = true)
    (h1 : d1.isDigit = true) (h2 : d2.isDigit = true)
    (hg : revGroupOk (c :: t).reverse = true) :
    isMoneyChars ((c :: t) ++ ['.', d1, d2]) = true
    ∧ isMoneyChars ('-' :: ((c :: t) ++ ['.', d1, d2])) = true := by
  have hcne : c ≠ '-' := by
    intro h
    rw [h] at hc
    exact absurd hc (by decide)
  have hstrip : stripMinus ((c :: t) ++ ['.', d1, d2]) = (c :: t) ++ ['.', d1, d2] := by
    rw [List.cons_append]
    exact stripMinus_of_head_ne c _ hcne
  constructor
  · exact isMoneyChars_tail (c :: t) d1 d2 h1 h2 hg hstrip
  · have : isMoneyChars ('-' :: ((c :: t) ++ ['.', d1, d2]))
        = isMoneyChars ((c :: t) ++ ['.', d1, d2]) := by
      unfold isMoneyChars
      rw [stripMinus_minus, hstrip]
    rw [this]
    exact isMoneyChars_tail (c :: t) d1 d2 h1 h2 hg hstrip

theorem isMoneyStr_fmtSep2 (q : ℚ) : isMoneyStr (fmtSep2 q) = true := by
  have h1 : (digitChar ((roundHalfEven (q * 100)).natAbs % 100 / 10)).isDigit = true :=
    digitChar_isDigit (by omega)
  have h2 : (digitChar ((roundHalfEven (q * 100)).natAbs % 10)).isDigit = true :=
    digitChar_isDigit (by omega)
  have hg := groupedIntChars_ok ((roundHalfEven (q * 100)).natAbs / 100)
  obtain ⟨c, t, hct, hcd⟩ := groupedIntChars_cons ((roundHalfEven (q * 100)).natAbs / 100)
  rw [hct] at hg
  show isMoneyChars ((if q < 0 then "-" else "")
      ++ String.mk (groupedIntChars ((roundHalfEven (q * 100)).natAbs / 100)) ++ "."
      ++ String.mk [digitChar ((roundHalfEven (q * 100)).natAbs % 100 / 10),
                    digitChar ((roundHalfEven (q * 100)).natAbs % 10)]).data = true
  rw [hct]
  by_cases hq : q < 0
  · rw [if_pos hq]
    have hdata : (("-" : String) ++ String.mk (c :: t) ++ "."
        ++ String.mk [digitChar ((roundHalfEven (q * 100)).natAbs % 100 / 10),
                      digitChar ((roundHalfEven (q * 100)).natAbs % 10)]).data
        = '-' :: ((c :: t) ++ ['.', digitChar ((roundHalfEven (q * 100)).natAbs % 100 / 10),
                      digitChar ((roundHalfEven (q * 100)).natAbs % 10)]) := by simp
    rw [hdata]
    exact (isMoneyChars_build c t _ _ hcd h1 h2 hg).2
  · rw [if_neg hq]
    have hdata : (("" : String) ++ String.mk (c :: t) ++ "."
        ++ String.mk [digitChar ((roundHalfEven (q * 100)).natAbs % 100 / 10),
                      digitChar ((roundHalfEven (q * 100)).natAbs % 10)]).data
        = (c :: t) ++ ['.', digitChar ((roundHalfEven (q * 100)).natAbs % 100 / 10),
                      digitChar ((roundHalfEven (q * 100)).natAbs % 10)] := by simp
    rw [hdata]
    exact (isMoneyChars_build c t _ _ hcd h1 h2 hg).1

theorem roundHalfEven_intCast (n : ℤ) : roundHalfEven (n : ℚ) = n := by
  unfold roundHalfEven
  simp only [Int.floor_intCast, sub_self]
  norm_num

/-- Evaluate `fmtSep2` when the scaled amount is an exact integer number of
cents. -/
theorem fmtSep2_concrete (q : ℚ) (m : ℤ) (h : q * 100 = (m : ℚ)) :
    fmtSep2 q = (if q < 0 then "-" else "")
      ++ String.mk (groupedIntChars (m.natAbs / 100)) ++ "."
      ++ String.mk [digitChar (m.natAbs % 100 / 10), digitChar (m.natAbs % 10)] := by
  unfold fmtSep2
  rw [h, roundHalfEven_intCast]

/-- C2: the currency formatter returns the symbol immediately followed by
the amount with exactly two fractional digits and thousands grouping; the
quoted examples hold (minus sign after the symbol), and an absent symbol is
treated as the empty string. -/
theorem fmt_currency_format (q : ℚ) (sym : String) :
    fmt_currency q (some sym) = sym ++ fmtSep2 q
    ∧ fmt_currency q none = fmt_currency q (some "")
    ∧ isMoneyStr (fmtSep2 q) = true
    ∧ fmt_currency (1234567.5 : ℚ) (some "NGN ") = "NGN 1,234,567.50"
    ∧ fmt_currency 0 (some "£") = "£0.00"
    ∧ fmt_currency (-42.1 : ℚ) (some "$") = "$-42.10" := by
  refine ⟨rfl, rfl, isMoneyStr_fmtSep2 q, ?_, ?_, ?_⟩
  · show "NGN " ++ fmtSep2 (1234567.5 : ℚ) = "NGN 1,234,567.50"
    rw [fmtSep2_concrete (1234567.5 : ℚ) 123456750 (by norm_num),
      if_neg (by norm_num)]
    decide
  · show "£" ++ fmtSep2 (0 : ℚ) = "£0.00"
    rw [fmtSep2_concrete (0 : ℚ) 0 (by norm_num), if_neg (by norm_num)]
    decide
  · show "$" ++ fmtSep2 (-42.1 : ℚ) = "$-42.10"
    rw [fmtSep2_concrete (-42.1 : ℚ) (-4210) (by norm_num),
      if_pos (by norm_num)]
    decide

theorem roundHalfEven_add_half (n : ℤ) :
    roundHalfEven ((n : ℚ) + 1/2) = if n % 2 = 0 then n else n + 1 := by
  have hfl : ⌊(n : ℚ) + 1/2⌋ = n := by
    rw [add_comm, Int.floor_add_int]
    norm_num
  unfold roundHalfEven
  rw [hfl]
  have hr : (n : ℚ) + 1/2 - n = 1/2 := by ring
  rw [hr]
  norm_num

theorem fmtSep2_eighth : fmtSep2 (1/8 : ℚ) = "0.12" := by
  have h : roundHalfEven ((1/8 : ℚ) * 100) = 12 := by
    rw [show ((1/8 : ℚ) * 100) = ((12 : ℤ) : ℚ) + 1/2 by norm_num,
      roundHalfEven_add_half]
    decide
  unfold fmtSep2
  rw [h, if_neg (by norm_num)]
  decide

/-- C3 counterexample: at the exactly representable amount `0.125`
(a tie between `0.12` and `0.13`) the formatter yields `"0.12"`, not the
half-away-from-zero result `"0.13"`. -/
theorem fmt_currency_not_half_away :
    fmt_currency (1/8 : ℚ) (some "") = "0.12"
    ∧ fmt_currency (1/8 : ℚ) (some "") ≠ "0.13" := by
  have h : fmt_currency (1/8 : ℚ) (some "") = "0.12" := by
    show "" ++ fmtSep2 (1/8 : ℚ) = "0.12"
    rw [fmtSep2_eighth]
    decide
  exact ⟨h, by rw [h]; decide⟩

/-- C3 (amended): the formatter rounds to 2 decimals to the *nearest*
representable value, resolving exact ties to the even cent
(round-half-to-even on the represented value), e.g. `0.125 → "0.12"` and
`0.375 → "0.38"`. -/
theorem fmt_currency_rounding (q : ℚ) (n : ℤ) :
    |(roundHalfEven q : ℚ) - q| ≤ 1/2
    ∧ roundHalfEven ((n : ℚ) + 1/2) = (if n % 2 = 0 then n else n + 1)
    ∧ fmt_currency (1/8 : ℚ) (some "") = "0.12"
    ∧ fmt_currency (3/8 : ℚ) (some "") = "0.38" := by
  refine ⟨?_, roundHalfEven_add_half n, ?_, ?_⟩
  · have h0 : ((⌊q⌋ : ℚ)) ≤ q := Int.floor_le q
    have h1 : q < ⌊q⌋ + 1 := Int.lt_floor_add_one q
    unfold roundHalfEven
    split_ifs with c1 c2 c3 <;> rw [abs_le] <;> push_cast <;>
      constructor <;> linarith
  · show "" ++ fmtSep2 (1/8 : ℚ) = "0.12"
    rw [fmtSep2_eighth]; decide
  · show "" ++ fmtSep2 (3/8 : ℚ) = "0.38"
    have h : roundHalfEven ((3/8 : ℚ) * 100) = 38 := by
      rw [show ((3/8 : ℚ) * 100) = ((37 : ℤ) : ℚ) + 1/2 by norm_num,
        roundHalfEven_add_half]
      decide
    unfold fmtSep2
    rw [h, if_neg (by norm_num)]
    decide

theorem takeWhile_all {p : Char → Bool} :
    ∀ (l : List Char), (∀ c ∈ l, p c = true) → l.takeWhile p = l
  | [], _ => rfl
  | a :: t, h => by
    rw [List.takeWhile_cons_of_pos (h a (by simp))]
    rw [takeWhile_all t (fun c hc => h c (by simp [hc]))]

theorem dropWhile_all {p : Char → Bool} :
    ∀ (l : List Char), (∀ c ∈ l, p c = true) → l.dropWhile p = []
  | [], _ => rfl
  | a :: t, h => by
    rw [List.dropWhile_cons_of_pos (h a (by simp))]
    exact dropWhile_all t (fun c hc => h c (by simp [hc]))

theorem takeWhile_append_all {p : Char → Bool} :
    ∀ (w : List Char) (r : List Char), (∀ c ∈ w, p c = true) →
      (w ++ r).takeWhile p = w ++ r.takeWhile p
  | [], r, _ => rfl
  | a :: t, r, h => by
    rw [List.cons_append, List.takeWhile_cons_of_pos (h a (by simp)),
      takeWhile_append_all t r (fun c hc => h c (by simp [hc])), List.cons_append]

theorem dropWhile_append_all {p : Char → Bool} :
    ∀ (w : List Char) (r : List Char), (∀ c ∈ w, p c = true) →
      (w ++ r).dropWhile p = r.dropWhile p
  | [], r, _ => rfl
  | a :: t, r, h => by
    rw [List.cons_append, List.dropWhile_cons_of_pos (h a (by simp))]
    exact dropWhile_append_all t r (fun c hc => h c (by simp [hc]))

theorem dropWhile_id {p : Char → Bool} (l : List Char)
    (h : ∀ c, l.head? = some c → p c = false) : l.dropWhile p = l := by
  cases l with
  | nil => rfl
  | cons a t => exact List.dropWhile_cons_of_neg (by simp [h a rfl])

/-- Every word produced by `pyWords` is nonempty, whitespace-free, and
made of characters of the input. -/
theorem mem_takeWhile_pred {p : Char → Bool} :
    ∀ (l : List Char) (x : Char), x ∈ l.takeWhile p → p x = true
  | a :: t, x, hx => by
    by_cases hp : p a = true
    · rw [List.takeWhile_cons_of_pos hp] at hx
      rcases List.mem_cons.mp hx with rfl | hx'
      · exact hp
      · exact mem_takeWhile_pred t x hx'
    · rw [List.takeWhile_cons_of_neg (by simpa using hp)] at hx
      simp at hx

theorem pyWords_spec :
    ∀ (l : List Char), ∀ w ∈ pyWords l,
      w ≠ [] ∧ ∀ c ∈ w, pySpace c = false ∧ c ∈ l
  | [] => by intro w hw; simp [pyWords] at hw
  | c :: cs => by
    intro w hw
    by_cases hc : pySpace c = true
    · rw [pyWords, if_pos hc] at hw
      obtain ⟨hne, hall⟩ := pyWords_spec cs w hw
      exact ⟨hne, fun x hx => ⟨(hall x hx).1, by simp [(hall x hx).2]⟩⟩
    · rw [pyWords, if_neg hc] at hw
      rcases List.mem_cons.mp hw with rfl | hw'
      · refine ⟨by simp, ?_⟩
        intro x hx
        rcases List.mem_cons.mp hx with rfl | hx'
        · exact ⟨by simpa using hc, by simp⟩
        · have hp : (!pySpace x) = true := mem_takeWhile_pred _ x hx'
          have hmem : x ∈ cs := (List.takeWhile_sublist _).subset hx'
          exact ⟨by simpa using hp, by simp [hmem]⟩
      · obtain ⟨hne, hall⟩ := pyWords_spec (cs.dropWhile (fun x => !pySpace x)) w hw'
        refine ⟨hne, fun x hx => ⟨(hall x hx).1, ?_⟩⟩
        have := (List.dropWhile_sublist (l := cs) (fun x => !pySpace x)).subset (hall x hx).2
        simp [this]
termination_by l => l.length
decreasing_by
  · simp only [List.length_cons]; omega
  · simp only [List.length_cons]
    have := (List.dropWhile_sublist (l := cs) (fun x => !pySpace x)).length_le
    omega

theorem joinSp_chars :
    ∀ (ws : List (List Char)), ∀ c ∈ joinSp ws, c = ' ' ∨ ∃ w ∈ ws, c ∈ w
  | [] => by intro c hc; simp [joinSp] at hc
  | [w] => by
    intro c hc
    rw [joinSp] at hc
    exact Or.inr ⟨w, by simp, hc⟩
  | w :: v :: ws => by
    intro c hc
    rw [joinSp] at hc
    rcases List.mem_append.mp hc with h | h
    · exact Or.inr ⟨w, by simp, h⟩
    · rcases List.mem_cons.mp h with rfl | h'
      · exact Or.inl rfl
      · rcases joinSp_chars (v :: ws) c h' with h'' | ⟨u, hu, hcu⟩
        · exact Or.inl h''
        · exact Or.inr ⟨u, by simp [List.mem_cons.mp hu], hcu⟩

theorem joinSp_head :
    ∀ (ws : List (List Char)),
      (∀ w ∈ ws, w ≠ [] ∧ ∀ c ∈ w, pySpace c = false) →
      ws = [] ∨ ∃ c t, joinSp ws = c :: t ∧ pySpace c = false
  | [], _ => Or.inl rfl
  | w :: ws, h => by
    obtain ⟨hne, hsf⟩ := h w (by simp)
    obtain ⟨a, t', rfl⟩ := List.exists_cons_of_ne_nil hne
    refine Or.inr ?_
    cases ws with
    | nil => exact ⟨a, t', by rw [joinSp], hsf a (by simp)⟩
    | cons v ws' =>
      exact ⟨a, t' ++ ' ' :: joinSp (v :: ws'),
        by rw [joinSp, List.cons_append], hsf a (by simp)⟩

theorem noDoubleSpace_append (w l : List Char)
    (hw : ∀ c ∈ w, pySpace c = false) (hl : noDoubleSpace l = true) :
    noDoubleSpace (w ++ l) = true := by
  induction w with
  | nil => simpa using hl
  | cons a w' ih =>
    have ha : a ≠ ' ' := by
      intro h
      have := hw a (by simp)
      rw [h] at this
      exact absurd this (by decide)
    have ih' : noDoubleSpace (w' ++ l) = true :=
      ih (fun c hc => hw c (by simp [hc]))
    rw [List.cons_append]
    rcases hwl : w' ++ l with _ | ⟨b, t⟩
    · rfl
    · rw [hwl] at ih'
      show (!(decide (a = ' ') && decide (b = ' ')) && noDoubleSpace (b :: t)) = true
      simp [ha, ih']

theorem noDoubleSpace_joinSp :
    ∀ (ws : List (List Char)),
      (∀ w ∈ ws, w ≠ [] ∧ ∀ c ∈ w, pySpace c = false) →
      noDoubleSpace (joinSp ws) = true
  | [], _ => rfl
  | [w], h => by
    rw [joinSp]
    have := noDoubleSpace_append w [] (fun c hc => (h w (by simp)).2 c hc) rfl
    simpa using this
  | w :: v :: ws, h => by
    rw [joinSp]
    have hrest : ∀ u ∈ v :: ws, u ≠ [] ∧ ∀ c ∈ u, pySpace c = false :=
      fun u hu => h u (by simp [List.mem_cons.mp hu])
    have ihJ : noDoubleSpace (joinSp (v :: ws)) = true :=
      noDoubleSpace_joinSp (v :: ws) hrest
    rcases joinSp_head (v :: ws) hrest with hnil | ⟨c, t, hct, hcf⟩
    · exact absurd hnil (by simp)
    · refine noDoubleSpace_append w _ (fun c hc => (h w (by simp)).2 c hc) ?_
      rw [hct]
      rw [hct] at ihJ
      have hc' : c ≠ ' ' := by
        intro hcc
        rw [hcc] at hcf
        exact absurd hcf (by decide)
      show (!(decide ((' ' : Char) = ' ') && decide (c = ' ')) && noDoubleSpace (c :: t)) = true
      simp [hc', ihJ]

theorem joinSp_getLast :
    ∀ (ws : List (List Char)),
      (∀ w ∈ ws, w ≠ [] ∧ ∀ c ∈ w, pySpace c = false) →
      ∀ c, (joinSp ws).getLast? = some c → pySpace c = false
  | [], _ => by intro c hc; simp [joinSp] at hc
  | [w], h => by
    intro c hc
    rw [joinSp] at hc
    exact (h w (by simp)).2 c (List.mem_of_getLast?_eq_some hc)
  | w :: v :: ws, h => by
    intro c hc
    rw [joinSp] at hc
    have hrest : ∀ u ∈ v :: ws, u ≠ [] ∧ ∀ x ∈ u, pySpace x = false :=
      fun u hu => h u (by simp [List.mem_cons.mp hu])
    rcases joinSp_head (v :: ws) hrest with hnil | ⟨d, t, hdt, _⟩
    · exact absurd hnil (by simp)
    · rw [List.getLast?_append] at hc
      have hJ : (' ' :: joinSp (v :: ws)).getLast? = (joinSp (v :: ws)).getLast? := by
        rw [hdt]
        simp [List.getLast?_cons_cons]
      rw [hJ] at hc
      rcases hlast : (joinSp (v :: ws)).getLast? with _ | d'
      · rw [hlast] at hc
        rw [hdt] at hlast
        simp at hlast
      · rw [hlast] at hc
        simp only [Option.or_some, Option.some.injEq] at hc
        subst hc
        exact joinSp_getLast (v :: ws) hrest _ hlast

theorem pyStrip_id (l : List Char)
    (hhead : ∀ c, l.head? = some c → pySpace c = false)
    (hlast : ∀ c, l.getLast? = some c → pySpace c = false) :
    pyStrip l = l := by
  unfold pyStrip
  rw [dropWhile_id l hhead]
  rw [dropWhile_id l.reverse (fun c hc => hlast c (by rwa [List.head?_reverse] at hc))]
  exact List.reverse_reverse l

theorem pyWords_joinSp :
    ∀ (ws : List (List Char)),
      (∀ w ∈ ws, w ≠ [] ∧ ∀ c ∈ w, pySpace c = false) →
      pyWords (joinSp ws) = ws
  | [], _ => by simp [pyWords, joinSp]
  | [w], h => by
    obtain ⟨hne, hsf⟩ := h w (by simp)
    obtain ⟨a, t, rfl⟩ := List.exists_cons_of_ne_nil hne
    rw [joinSp, pyWords, if_neg (by simp [hsf a (by simp)])]
    have hall : ∀ c ∈ t, (!pySpace c) = true :=
      fun c hc => by simp [hsf c (by simp [hc])]
    rw [takeWhile_all t hall, dropWhile_all t hall]
    simp [pyWords]
  | w :: v :: ws, h => by
    obtain ⟨hne, hsf⟩ := h w (by simp)
    obtain ⟨a, t, rfl⟩ := List.exists_cons_of_ne_nil hne
    have hrest : ∀ u ∈ v :: ws, u ≠ [] ∧ ∀ c ∈ u, pySpace c = false :=
      fun u hu => h u (by simp [List.mem_cons.mp hu])
    rw [joinSp, List.cons_append, pyWords, if_neg (by simp [hsf a (by simp)])]
    have hall : ∀ c ∈ t, (!pySpace c) = true :=
      fun c hc => by simp [hsf c (by simp [hc])]
    rw [takeWhile_append_all t _ hall, dropWhile_append_all t _ hall]
    rw [List.takeWhile_cons_of_neg (by simp [pySpace]),
      List.dropWhile_cons_of_neg (by simp [pySpace])]
    rw [List.append_nil]
    have hspace : pySpace ' ' = true := by decide
    rw [pyWords, if_pos hspace]
    rw [pyWords_joinSp (v :: ws) hrest]

theorem replaceBad_not_bad (c : Char) : replaceBad c ∉ badChars := by
  unfold replaceBad
  split
  · decide
  · assumption

/-- C10: the filename sanitiser is idempotent, its output contains none of
the replaced characters `/ \ : * ? " < > |` nor newline, carriage return or
tab (all members of `badChars`), and never two adjacent spaces. -/
theorem sanitise_filename_props (s : String) :
    sanitiseFilenamePart (sanitiseFilenamePart s) = sanitiseFilenamePart s
    ∧ (∀ c ∈ (sanitiseFilenamePart s).data, c ∉ badChars)
    ∧ noDoubleSpace (sanitiseFilenamePart s).data = true := by
  have hwords : ∀ w ∈ pyWords ((pyStrip s.data).map replaceBad),
      w ≠ [] ∧ ∀ c ∈ w, pySpace c = false :=
    fun w hw => ⟨(pyWords_spec _ w hw).1,
      fun c hc => ((pyWords_spec _ w hw).2 c hc).1⟩
  have hdata : (sanitiseFilenamePart s).data
      = joinSp (pyWords ((pyStrip s.data).map replaceBad)) := rfl
  have hnotbad : ∀ c ∈ (sanitiseFilenamePart s).data, c ∉ badChars := by
    intro c hc
    rw [hdata] at hc
    rcases joinSp_chars _ c hc with rfl | ⟨w, hw, hcw⟩
    · decide
    · have hmem := ((pyWords_spec _ w hw).2 c hcw).2
      obtain ⟨c', _, rfl⟩ := List.mem_map.mp hmem
      exact replaceBad_not_bad c'
  refine ⟨?_, hnotbad, ?_⟩
  · show String.mk (joinSp (pyWords ((pyStrip (sanitiseFilenamePart s).data).map replaceBad)))
      = sanitiseFilenamePart s
    have hstrip : pyStrip (sanitiseFilenamePart s).data = (sanitiseFilenamePart s).data := by
      rw [hdata]
      refine pyStrip_id _ ?_ ?_
      · intro c hc
        rcases joinSp_head _ hwords with hnil | ⟨d, t, hdt, hdf⟩
        · rw [hnil] at hc
          simp [joinSp] at hc
        · rw [hdt] at hc
          simp only [List.head?_cons, Option.some.injEq] at hc
          subst hc
          exact hdf
      · exact fun c hc => joinSp_getLast _ hwords c hc
    have hmap : ((sanitiseFilenamePart s).data).map replaceBad
        = (sanitiseFilenamePart s).data := by
      have : ∀ c ∈ (sanitiseFilenamePart s).data, replaceBad c = c := by
        intro c hc
        unfold replaceBad
        rw [if_neg (hnotbad c hc)]
      calc ((sanitiseFilenamePart s).data).map replaceBad
          = ((sanitiseFilenamePart s).data).map id := List.map_congr_left this
        _ = (sanitiseFilenamePart s).data := List.map_id _
    rw [hstrip, hmap, hdata, pyWords_joinSp _ hwords]
    rfl
  · rw [hdata]
    exact noDoubleSpace_joinSp _ hwords

theorem fmtSep2_zero : fmtSep2 0 = "0.00" := by
  have h : roundHalfEven ((0 : ℚ) * 100) = ((0 : ℤ)) := by
    rw [show ((0 : ℚ) * 100) = ((0 : ℤ) : ℚ) by norm_num]
    exact roundHalfEven_intCast 0
  unfold fmtSep2
  rw [h, if_neg (by norm_num)]
  decide

/-- C6: with an empty item list the section body draws no item rows, draws
exactly one totals row whose right-aligned value is the formatted zero
(`"0.00"` after the symbol), and the cursor steps exactly one `line_gap`
for the items-plus-total. -/
theorem empty_section_total_row (g x0 x1 y : ℚ) (title totalLabel sym : String) :
    lineItemsBlock g x0 x1 (some sym) [] y = ([], y)
    ∧ grossOf [] = 0
    ∧ fmt_currency (grossOf []) (some sym) = sym ++ "0.00"
    ∧ sectionBlock g x0 x1 y title [] totalLabel (grossOf []) (some sym)
      = ([.text x0 y title, .line x0 (y - 2) (x0 + 30 * mmQ) (y - 2),
          .text x0 (y - 20) totalLabel, .rightText x1 (y - 20) (sym ++ "0.00")],
         y - 20 - g) := by
  have h0 : fmt_currency (grossOf []) (some sym) = sym ++ "0.00" := by
    show sym ++ fmtSep2 0 = sym ++ "0.00"
    rw [fmtSep2_zero]
  refine ⟨rfl, rfl, h0, ?_⟩
  unfold sectionBlock sectionTitle lineItemsBlock
  simp [h0]

/-- C5 counterexample: with the default footer gaps (4 mm signature gap,
3 mm name gap) and no signature path, the cursor drop between the approver
label and the printed name is `(4+3)·mm`, not the claimed `3·mm`. -/
theorem footer_name_gap_counterexample :
    (footerBlock 0 100 ⟨"Approved By:", "A", 4, 3⟩ none true).1
      = [.text 0 100 "Approved By:", .text 0 (100 - (4 + 3) * mmQ) "A"]
    ∧ (100 : ℚ) - (100 - (4 + 3) * mmQ) ≠ 3 * mmQ := by
  constructor
  · have h' : ("A" : String) ≠ "" := by decide
    unfold footerBlock
    rw [show pyStripStr "A" = "A" from rfl]
    simp only [Option.isSome_none, Bool.false_and, if_neg h']
    norm_num
    ring_nf
  · intro h
    rw [show (100 : ℚ) - (100 - (4 + 3) * mmQ) = 7 * mmQ by ring] at h
    rw [mmQ] at h
    norm_num at h

/-- C5 (amended): when the signature path is absent the footer still draws
the approver label and the stripped nonempty approver name with no error;
the image height is skipped, and the cursor drop between the label row and
the name row is `(signature_gap_mm + name_gap_mm)·mm` (both gaps, not the
name gap alone). -/
theorem footer_no_signature (x0 y : ℚ) (cfg : FooterCfg) (sok : Bool)
    (h : pyStripStr cfg.approved_by_name ≠ "") :
    footerBlock x0 y cfg none sok
      = ([.text x0 y cfg.approved_by_label,
          .text x0 (y - (cfg.signature_gap_mm + cfg.name_gap_mm) * mmQ)
            (pyStripStr cfg.approved_by_name)],
         y - (cfg.signature_gap_mm + cfg.name_gap_mm) * mmQ - 10) := by
  unfold footerBlock
  simp only [Option.isSome_none, Bool.false_and, if_false, Bool.false_eq_true,
    if_neg h]
  rw [show y - cfg.signature_gap_mm * mmQ - cfg.name_gap_mm * mmQ
      = y - (cfg.signature_gap_mm + cfg.name_gap_mm) * mmQ by ring]
  rfl

theorem footer_no_signature_witness :
    pyStripStr "A" ≠ ""
    ∧ footerBlock 0 0 ⟨"Approved By:", "A", 4, 3⟩ none true
      = ([.text 0 0 "Approved By:", .text 0 (0 - ((4 : ℚ) + 3) * mmQ) "A"],
         0 - ((4 : ℚ) + 3) * mmQ - 10) :=
  ⟨by decide, footer_no_signature 0 0 ⟨"Approved By:", "A", 4, 3⟩ true (by decide)⟩

theorem lineItems_texts (g x0 x1 : ℚ) (sym : Option String) :
    ∀ (l : List LineItem) (y : ℚ),
      textStrings (lineItemsBlock g x0 x1 sym l y).1
        = l.flatMap (fun it => [it.label, fmt_currency it.amount sym])
  | [], _ => rfl
  | it :: its, y => by
    show textStrings (.text x0 y it.label
        :: .rightText x1 y (fmt_currency it.amount sym)
        :: (lineItemsBlock g x0 x1 sym its (y - g)).1) = _
    simp only [textStrings, List.filterMap_cons, textOf, List.flatMap_cons]
    rw [show List.filterMap textOf (lineItemsBlock g x0 x1 sym its (y - g)).1
        = textStrings (lineItemsBlock g x0 x1 sym its (y - g)).1 from rfl,
      lineItems_texts g x0 x1 sym its (y - g)]
    rfl

theorem lineItems_images (g x0 x1 : ℚ) (sym : Option String) :
    ∀ (l : List LineItem) (y : ℚ),
      imagePaths (lineItemsBlock g x0 x1 sym l y).1 = []
  | [], _ => rfl
  | it :: its, y => by
    show imagePaths (.text x0 y it.label
        :: .rightText x1 y (fmt_currency it.amount sym)
        :: (lineItemsBlock g x0 x1 sym its (y - g)).1) = _
    simp only [imagePaths, List.filterMap_cons, imageOf]
    exact lineItems_images g x0 x1 sym its (y - g)

theorem filterMap_textOf_lineItems (g x0 x1 : ℚ) (sym : Option String)
    (l : List LineItem) (y : ℚ) :
    List.filterMap textOf (lineItemsBlock g x0 x1 sym l y).1
      = l.flatMap (fun it => [it.label, fmt_currency it.amount sym]) :=
  lineItems_texts g x0 x1 sym l y

theorem filterMap_imageOf_lineItems (g x0 x1 : ℚ) (sym : Option String)
    (l : List LineItem) (y : ℚ) :
    List.filterMap imageOf (lineItemsBlock g x0 x1 sym l y).1 = [] :=
  lineItems_images g x0 x1 sym l y

theorem filterMap_textOf_infoRows (g x0 vx : ℚ) :
    ∀ (rows : List (String × String)) (y : ℚ),
      List.filterMap textOf (infoRowsBlock g x0 vx rows y).1
        = rows.flatMap (fun r => [r.1, r.2])
  | [], _ => rfl
  | (k, v) :: rs, y => by
    show List.filterMap textOf (.text x0 y k :: .text vx y v
        :: (infoRowsBlock g x0 vx rs (y - g)).1) = _
    simp only [List.filterMap_cons, textOf, List.flatMap_cons]
    rw [filterMap_textOf_infoRows g x0 vx rs (y - g)]
    rfl

theorem filterMap_imageOf_infoRows (g x0 vx : ℚ) :
    ∀ (rows : List (String × String)) (y : ℚ),
      List.filterMap imageOf (infoRowsBlock g x0 vx rows y).1 = []
  | [], _ => rfl
  | (k, v) :: rs, y => by
    show List.filterMap imageOf (.text x0 y k :: .text vx y v
        :: (infoRowsBlock g x0 vx rs (y - g)).1) = _
    simp only [List.filterMap_cons, imageOf]
    exact filterMap_imageOf_infoRows g x0 vx rs (y - g)

theorem filterMap_textOf_opt_image (b : Bool) (p : String) (x y w h : ℚ) :
    List.filterMap textOf (if b then [DrawCmd.image p x y w h] else []) = [] := by
  cases b <;> rfl

theorem filterMap_imageOf_opt_image (b : Bool) (p : String) (x y w h : ℚ) :
    List.filterMap imageOf (if b then [DrawCmd.image p x y w h] else [])
      = (if b then [p] else []) := by
  cases b <;> rfl

theorem filterMap_textOf_opt_name (c : Prop) [Decidable c] (x0 y2 : ℚ) (name : String) :
    List.filterMap textOf (if c then ([] : List DrawCmd) else [DrawCmd.text x0 y2 name])
      = (if c then [] else [name]) := by
  by_cases h : c <;> simp [h, textOf]

theorem filterMap_imageOf_opt_name (c : Prop) [Decidable c] (x0 y2 : ℚ) (name : String) :
    List.filterMap imageOf (if c then ([] : List DrawCmd) else [DrawCmd.text x0 y2 name])
      = [] := by
  by_cases h : c <;> simp [h, imageOf]

/-- C7: a failing `drawImage` (logo or signature) is swallowed: the very
same text rows and sections are still drawn in the same order, the page is
finalized and saved, and the failed image alone is missing from the page. -/
theorem image_failure_nonfatal (ex : Exporter) (inp : RenderInput) (lok sok : Bool) :
    textStrings (render_pdf ex inp lok sok).cmds
      = textStrings (render_pdf ex inp true true).cmds
    ∧ imagePaths (render_pdf ex inp lok sok).cmds
      = (match inp.logo_path with
         | some p => if lok then [p] else []
         | none => [])
        ++ (match inp.signature_path with
            | some p => if sok then [p] else []
            | none => [])
    ∧ ∃ l, (render_pdf ex inp lok sok).cmds = l ++ [.showPage, .savePdf] := by
  refine ⟨?_, ?_, ⟨_, rfl⟩⟩
  · unfold render_pdf footerBlock sectionBlock sectionTitle sepCmd
    rcases inp.logo_path with _ | p <;>
      rcases inp.signature_path with _ | q <;>
        simp only [textStrings, List.filterMap_append, List.filterMap_cons,
          List.filterMap_nil, textOf, filterMap_textOf_lineItems,
          filterMap_textOf_infoRows, filterMap_textOf_opt_image,
          filterMap_textOf_opt_name, List.append_nil, List.nil_append,
          if_true, if_false]
  · unfold render_pdf footerBlock sectionBlock sectionTitle sepCmd
    rcases inp.logo_path with _ | p <;>
      rcases inp.signature_path with _ | q <;>
        simp only [imagePaths, List.filterMap_append, List.filterMap_cons,
          List.filterMap_nil, imageOf, filterMap_imageOf_lineItems,
          filterMap_imageOf_infoRows, filterMap_imageOf_opt_image,
          filterMap_imageOf_opt_name, List.append_nil, List.nil_append,
          if_true, if_false]

theorem lineItemsBlock_snd (g x0 x1 : ℚ) (sym : Option String) :
    ∀ (l : List LineItem) (y : ℚ),
      (lineItemsBlock g x0 x1 sym l y).2 = y - l.length * g
  | [], y => by simp [lineItemsBlock]
  | it :: its, y => by
    show (lineItemsBlock g x0 x1 sym its (y - g)).2 = _
    rw [lineItemsBlock_snd g x0 x1 sym its (y - g)]
    simp only [List.length_cons]
    push_cast
    ring

theorem infoRowsBlock_snd (g x0 vx : ℚ) :
    ∀ (rows : List (String × String)) (y : ℚ),
      (infoRowsBlock g x0 vx rows y).2 = y - rows.length * g
  | [], y => by simp [infoRowsBlock]
  | (k, v) :: rs, y => by
    show (infoRowsBlock g x0 vx rs (y - g)).2 = _
    rw [infoRowsBlock_snd g x0 vx rs (y - g)]
    simp only [List.length_cons]
    push_cast
    ring

theorem traceFrom_head (y : ℚ) (l : List ℚ) : (traceFrom y l).head? = some y := by
  cases l <;> rfl

theorem traceFrom_ne_nil (y : ℚ) (l : List ℚ) : traceFrom y l ≠ [] := by
  cases l <;> simp [traceFrom]

theorem traceFrom_getLast :
    ∀ (l : List ℚ) (y : ℚ), (traceFrom y l).getLast? = some (y - l.sum)
  | [], y => by simp [traceFrom]
  | d :: ds, y => by
    rw [show traceFrom y (d :: ds) = y :: traceFrom (y - d) ds from rfl]
    rcases hds : traceFrom (y - d) ds with _ | ⟨a, t⟩
    · exact absurd hds (traceFrom_ne_nil _ _)
    · rw [List.getLast?_cons_cons]
      have ih := traceFrom_getLast ds (y - d)
      rw [hds] at ih
      rw [ih]
      congr 1
      simp only [List.sum_cons]
      ring

theorem traceFrom_chain :
    ∀ (l : List ℚ) (y : ℚ), (∀ d ∈ l, 0 ≤ d) →
      List.Chain' (fun a b => b ≤ a) (traceFrom y l)
  | [], y, _ => by simp [traceFrom]
  | d :: ds, y, h => by
    rw [show traceFrom y (d :: ds) = y :: traceFrom (y - d) ds from rfl]
    rcases hds : traceFrom (y - d) ds with _ | ⟨a, t⟩
    · exact absurd hds (traceFrom_ne_nil _ _)
    · rw [List.chain'_cons]
      have ha : a = y - d := by
        have hh := traceFrom_head (y - d) ds
        rw [hds] at hh
        simpa using hh
      have ih := traceFrom_chain ds (y - d) (fun x hx => h x (by simp [hx]))
      rw [hds] at ih
      subst ha
      exact ⟨by have := h d (by simp); linarith, ih⟩

theorem decrements_nonneg (ex : Exporter) (nE nD : ℕ) (cfg : FooterCfg)
    (sd ns : Bool) (hg : 0 ≤ ex.line_gap) (hs : 0 ≤ cfg.signature_gap_mm)
    (hn : 0 ≤ cfg.name_gap_mm) :
    ∀ d ∈ decrements ex nE nD cfg sd ns, 0 ≤ d := by
  have hmm : (0 : ℚ) ≤ mmQ := by rw [mmQ]; norm_num
  have h1 : 0 ≤ cfg.signature_gap_mm * mmQ := mul_nonneg hs hmm
  have h2 : 0 ≤ cfg.name_gap_mm * mmQ := mul_nonneg hn hmm
  unfold decrements
  rw [List.forall_mem_append, List.forall_mem_append, List.forall_mem_append,
    List.forall_mem_append, List.forall_mem_append, List.forall_mem_append,
    List.forall_mem_append]
  refine ⟨⟨⟨⟨⟨⟨⟨?_, ?_⟩, ?_⟩, ?_⟩, ?_⟩, ?_⟩, ?_⟩, ?_⟩
  · intro d hd
    fin_cases hd <;> linarith
  · intro d hd
    rw [List.eq_of_mem_replicate hd]
    exact hg
  · intro d hd
    fin_cases hd <;> linarith
  · intro d hd
    rw [List.eq_of_mem_replicate hd]
    exact hg
  · intro d hd
    fin_cases hd <;> linarith
  · intro d hd
    rw [List.eq_of_mem_replicate hd]
    exact hg
  · intro d hd
    fin_cases hd <;> try linarith
    split <;> linarith
  · intro d hd
    cases ns with
    | false => simp at hd
    | true =>
      simp only [if_true] at hd
      rw [List.mem_singleton] at hd
      rw [hd]
      norm_num

theorem render_finalY (ex : Exporter) (inp : RenderInput) (lok sok : Bool) :
    (render_pdf ex inp lok sok).finalY
      = A4height - ex.margin
        - (decrements ex inp.earnings.length inp.deductions.length inp.footer
            (inp.signature_path.isSome && sok)
            (!(pyStripStr inp.footer.approved_by_name == ""))).sum := by
  unfold render_pdf footerBlock sectionBlock sectionTitle decrements
  simp only [lineItemsBlock_snd, infoRowsBlock_snd]
  rcases inp.signature_path with _ | q <;> cases sok <;>
    by_cases hname : pyStripStr inp.footer.approved_by_name = "" <;>
      simp [hname, List.sum_append, List.sum_replicate, nsmul_eq_mul,
        List.sum_cons] <;>
      ring

/-- C4: with a positive line gap and non-negative footer gaps, the layout
cursor starts at `pageHeight - margin`, is non-increasing at every step of
the section sequence, and its final value is exactly the final cursor
`render_pdf` computes from the same inputs (a deterministic function of
the document). -/
theorem layout_cursor_monotone (ex : Exporter) (inp : RenderInput) (lok sok : Bool)
    (hg : 0 < ex.line_gap) (hs : 0 ≤ inp.footer.signature_gap_mm)
    (hn : 0 ≤ inp.footer.name_gap_mm) :
    (cursorTrace ex inp.earnings.length inp.deductions.length inp.footer
        (inp.signature_path.isSome && sok)
        (!(pyStripStr inp.footer.approved_by_name == ""))).head?
      = some (A4height - ex.margin)
    ∧ List.Chain' (fun a b => b ≤ a)
        (cursorTrace ex inp.earnings.length inp.deductions.length inp.footer
          (inp.signature_path.isSome && sok)
          (!(pyStripStr inp.footer.approved_by_name == "")))
    ∧ (cursorTrace ex inp.earnings.length inp.deductions.length inp.footer
        (inp.signature_path.isSome && sok)
        (!(pyStripStr inp.footer.approved_by_name == ""))).getLast?
      = some ((render_pdf ex inp lok sok).finalY) := by
  refine ⟨traceFrom_head _ _,
    traceFrom_chain _ _
      (decrements_nonneg ex inp.earnings.length inp.deductions.length inp.footer
        _ _ hg.le hs hn), ?_⟩
  rw [cursorTrace, traceFrom_getLast, render_finalY]

theorem layout_cursor_monotone_witness :
    (0 : ℚ) < Exporter.mkDefault.line_gap
    ∧ (0 : ℚ) ≤ sampleInput.footer.signature_gap_mm
    ∧ (0 : ℚ) ≤ sampleInput.footer.name_gap_mm
    ∧ ((cursorTrace Exporter.mkDefault sampleInput.earnings.length
          sampleInput.deductions.length sampleInput.footer
          (sampleInput.signature_path.isSome && true)
          (!(pyStripStr sampleInput.footer.approved_by_name == ""))).head?
        = some (A4height - Exporter.mkDefault.margin)
      ∧ List.Chain' (fun a b => b ≤ a)
          (cursorTrace Exporter.mkDefault sampleInput.earnings.length
            sampleInput.deductions.length sampleInput.footer
            (sampleInput.signature_path.isSome && true)
            (!(pyStripStr sampleInput.footer.approved_by_name == "")))
      ∧ (cursorTrace Exporter.mkDefault sampleInput.earnings.length
          sampleInput.deductions.length sampleInput.footer
          (sampleInput.signature_path.isSome && true)
          (!(pyStripStr sampleInput.footer.approved_by_name == ""))).getLast?
        = some ((render_pdf Exporter.mkDefault sampleInput true true).finalY)) :=
  ⟨by norm_num [Exporter.mkDefault],
   by norm_num [sampleInput, sampleFooter],
   by norm_num [sampleInput, sampleFooter],
   layout_cursor_monotone Exporter.mkDefault sampleInput true true
     (by norm_num [Exporter.mkDefault])
     (by norm_num [sampleInput, sampleFooter])
     (by norm_num [sampleInput, sampleFooter])⟩

/-- C1: the composer computes `gross`, `totalDeduction` and `netPay` from
the line items before drawing; `netPay` equals
`sum(earnings) - sum(deductions)` exactly (so certainly within `1e-9`),
and the net-pay row the renderer draws shows exactly that recomputed
value, right-aligned at the right margin. -/
theorem composer_totals (ex : Exporter) (inp : RenderInput) (lok sok : Bool) :
    netPayOf inp.earnings inp.deductions
      = (inp.earnings.map LineItem.amount).sum
        - (inp.deductions.map LineItem.amount).sum
    ∧ |netPayOf inp.earnings inp.deductions
        - ((inp.earnings.map LineItem.amount).sum
           - (inp.deductions.map LineItem.amount).sum)|
      ≤ 1 / 1000000000
    ∧ ∃ y, DrawCmd.rightText (A4width - ex.margin) y
        (fmt_currency (netPayOf inp.earnings inp.deductions)
          (some inp.currency_symbol))
        ∈ (render_pdf ex inp lok sok).cmds := by
  refine ⟨rfl, by simp [netPayOf, grossOf, totalDeductionOf], ?_⟩
  apply Exists.intro
  unfold render_pdf
  simp only [List.mem_append, List.mem_cons]
  exact Or.inl (Or.inl (Or.inl (Or.inl (Or.inr (Or.inr (Or.inl rfl))))))

/-- C8 counterexample: with the logo file absent, the run aborts inside
the up-front validation (main.py line 96), before the employee loop: the
result is the raised error, so no employee gets a manifest row at all —
contradicting the claim that every employee's manifest row records the
error. -/
theorem validation_abort_counterexample :
    runMain ⟨"assets/logo.png", false, ".png", [".png"], false, none, (0, 0), "x"⟩
        ⟨"assets/sig.png", true, ".png", [".png"], false, none, (0, 0), "x"⟩
        [] [] "2025-05" "May 2025" "out/pdf" (fun _ => none) true
        [⟨"E1", "John", "jx", "Eng", "RD", fun _ => none⟩]
      = .error "Missing required asset 'logo': assets/logo.png"
    ∧ ∀ rows paths,
        runMain ⟨"assets/logo.png", false, ".png", [".png"], false, none, (0, 0), "x"⟩
            ⟨"assets/sig.png", true, ".png", [".png"], false, none, (0, 0), "x"⟩
            [] [] "2025-05" "May 2025" "out/pdf" (fun _ => none) true
            [⟨"E1", "John", "jx", "Eng", "RD", fun _ => none⟩]
          ≠ .ok (rows, paths) := by
  have h : runMain ⟨"assets/logo.png", false, ".png", [".png"], false, none, (0, 0), "x"⟩
        ⟨"assets/sig.png", true, ".png", [".png"], false, none, (0, 0), "x"⟩
        [] [] "2025-05" "May 2025" "out/pdf" (fun _ => none) true
        [⟨"E1", "John", "jx", "Eng", "RD", fun _ => none⟩]
      = .error "Missing required asset 'logo': assets/logo.png" := rfl
  refine ⟨h, ?_⟩
  intro rows paths hok
  rw [h] at hok
  exact Except.noConfusion hok

/-- C8 (amended): if the logo file is absent, the run-level validation
raises before any employee is processed: the whole run aborts with an
error message containing the missing-asset path, no manifest row is
recorded for any employee and no PDF is written, regardless of the
fail-fast flag. -/
theorem missing_logo_aborts_run (logo sig : AssetSpec)
    (earningsCfg deductionsCfg : List FieldCfg)
    (periodId periodDisplay pdfDir : String)
    (renderFails : Emp → Option String) (failFast : Bool) (emps : List Emp)
    (h : logo.pathExists = false) :
    runMain logo sig earningsCfg deductionsCfg periodId periodDisplay pdfDir
        renderFails failFast emps
      = .error ("Missing required asset 'logo': " ++ logo.path)
    ∧ ∃ pre post,
        ("Missing required asset 'logo': " ++ logo.path)
          = pre ++ logo.path ++ post := by
  constructor
  · unfold runMain validate_branding_assets validate_asset
    simp [h]
  · exact ⟨"Missing required asset 'logo': ", "", by simp⟩

theorem missing_logo_aborts_run_witness :
    (⟨"assets/logo.png", false, ".png", [".png"], false, none, (0, 0), "x"⟩
        : AssetSpec).pathExists = false
    ∧ (runMain ⟨"assets/logo.png", false, ".png", [".png"], false, none, (0, 0), "x"⟩
          ⟨"assets/sig.png", true, ".png", [".png"], false, none, (0, 0), "x"⟩
          [] [] "2025-05" "May 2025" "out/pdf" (fun _ => none) false
          [⟨"E1", "John", "jx", "Eng", "RD", fun _ => none⟩]
        = .error ("Missing required asset 'logo': " ++ "assets/logo.png")
      ∧ ∃ pre post,
          ("Missing required asset 'logo': " ++ "assets/logo.png")
            = pre ++ "assets/logo.png" ++ post) :=
  ⟨rfl, missing_logo_aborts_run
    ⟨"assets/logo.png", false, ".png", [".png"], false, none, (0, 0), "x"⟩
    ⟨"assets/sig.png", true, ".png", [".png"], false, none, (0, 0), "x"⟩
    [] [] "2025-05" "May 2025" "out/pdf" (fun _ => none) false
    [⟨"E1", "John", "jx", "Eng", "RD", fun _ => none⟩] rfl⟩

/-- C9: in a run without fail-fast, every employee yields exactly one
manifest row, in order: `"generated"` with the output path and the totals
formatted to two decimals on success, `"error: <message>"` with an empty
`pdf_path` on a render failure — which does not abort the processing of
later employees; the recorded PDF paths are exactly those of the
successful renders. -/
theorem batch_rows (earningsCfg deductionsCfg : List FieldCfg)
    (periodId periodDisplay pdfDir : String)
    (renderFails : Emp → Option String) (emps : List Emp) :
    ∃ rows paths,
      runBatch earningsCfg deductionsCfg periodId periodDisplay pdfDir
          renderFails false emps
        = .ok (rows, paths)
      ∧ List.Forall₂ (fun (e : Emp) (row : ManifestRow) =>
          match renderFails e with
          | none =>
            row.status = "generated"
            ∧ row.pdf_path = pdfDir ++ "/" ++ pdfFilename e periodId
            ∧ row.gross_income
              = fmt2NoSep ((buildLineItems e.raw earningsCfg).map LineItem.amount).sum
            ∧ row.total_deductions
              = fmt2NoSep ((buildLineItems e.raw deductionsCfg).map LineItem.amount).sum
            ∧ row.net_pay
              = fmt2NoSep (((buildLineItems e.raw earningsCfg).map LineItem.amount).sum
                  - ((buildLineItems e.raw deductionsCfg).map LineItem.amount).sum)
          | some m => row.status = "error: " ++ m ∧ row.pdf_path = "") emps rows
      ∧ rows.length = emps.length
      ∧ paths = emps.filterMap (fun e =>
          match renderFails e with
          | none => some (pdfDir ++ "/" ++ pdfFilename e periodId)
          | some _ => none) := by
  induction emps with
  | nil => exact ⟨[], [], rfl, List.Forall₂.nil, rfl, rfl⟩
  | cons e rest ih =>
    obtain ⟨rows, paths, h1, h2, h3, h4⟩ := ih
    cases hre : renderFails e with
    | none =>
      refine ⟨⟨e.ref, e.name, e.email, periodId, periodDisplay,
          pdfDir ++ "/" ++ pdfFilename e periodId,
          fmt2NoSep ((buildLineItems e.raw earningsCfg).map LineItem.amount).sum,
          fmt2NoSep ((buildLineItems e.raw deductionsCfg).map LineItem.amount).sum,
          fmt2NoSep (((buildLineItems e.raw earningsCfg).map LineItem.amount).sum
            - ((buildLineItems e.raw deductionsCfg).map LineItem.amount).sum),
          "generated"⟩ :: rows,
        (pdfDir ++ "/" ++ pdfFilename e periodId) :: paths, ?_, ?_, ?_, ?_⟩
      · simp only [runBatch, hre, h1]
      · refine List.Forall₂.cons ?_ h2
        rw [hre]
        exact ⟨rfl, rfl, rfl, rfl, rfl⟩
      · simp [h3]
      · simp only [List.filterMap_cons, hre, h4]
    | some m =>
      refine ⟨⟨e.ref, e.name, e.email, periodId, periodDisplay, "", "", "", "",
          "error: " ++ m⟩ :: rows, paths, ?_, ?_, ?_, ?_⟩
      · simp only [runBatch, hre, h1, if_false, Bool.false_eq_true]
      · refine List.Forall₂.cons ?_ h2
        rw [hre]
        exact ⟨rfl, rfl⟩
      · simp [h3]
      · simp only [List.filterMap_cons, hre, h4]

end Payslip
